import Mathlib

/-!
Verification of the agent-run streaming pipeline of the rayyan backend.

The embedding below translates the run coordinator in
src/backend/src/routers/agent.py (message persistence, history assembly,
the SSE event generator and run finalization) and the advisory tools in
src/backend/src/agent/tools.py into Lean.  Database ids (UUIDs in the
source) are modelled as opaque natural numbers handed out by per-table
counters; timestamps are modelled as natural-number ticks.
-/

namespace Rayyan

/-- Message role, from models/message.py. -/
inductive MessageRole
  | user
  | assistant
  | system
deriving DecidableEq, Repr

/-- Run status, from models/run.py. -/
inductive RunStatus
  | pending
  | running
  | completed
  | failed
  | cancelled
deriving DecidableEq, Repr

/-- A reasoning step recorded for a tool_start named reason_step
    (agent.py lines 234-242). -/
structure ReasoningStep where
  title : String
  detail : String
  timestamp : Nat
deriving DecidableEq, Repr

/-- A tool-call step recorded for any other tool_start (agent.py lines
    243-251).  The tool input dict is modelled as an association list. -/
structure ToolCallStep where
  tool : String
  input : List (String × String)
  timestamp : Nat
deriving DecidableEq, Repr

/-- Metadata attached to a persisted message: the empty dict, or the
    assistant metadata of agent.py lines 271-275. -/
inductive MessageMeta
  | empty
  | assistant (reasoningSteps : List ReasoningStep) (toolCalls : List ToolCallStep) (runId : Nat)
deriving DecidableEq, Repr

/-- Metadata attached to a run record: the empty dict, the success
    metadata of lines 281-284, or the error dict of line 302. -/
inductive RunMeta
  | empty
  | success (reasoningSteps : List ReasoningStep) (toolCalls : List ToolCallStep)
  | error (message : String)
deriving DecidableEq, Repr

/-- A persisted message row, from models/message.py. -/
structure Message where
  id : Nat
  threadId : Nat
  position : Nat
  role : MessageRole
  content : String
  metadata : MessageMeta
deriving DecidableEq, Repr

/-- A persisted thread row (the fields the agent router touches), from
    models/thread.py. -/
structure Thread where
  id : Nat
  userId : Nat
  lastMessageAt : Option Nat
deriving DecidableEq, Repr

/-- A persisted run row, from models/run.py. -/
structure Run where
  id : Nat
  threadId : Nat
  status : RunStatus
  metadata : RunMeta
  startedAt : Option Nat
  completedAt : Option Nat
deriving DecidableEq, Repr

/-- The relational store as seen by the agent router. -/
structure DB where
  threads : List Thread
  messages : List Message
  runs : List Run
  nextMessageId : Nat
  nextRunId : Nat
deriving DecidableEq, Repr

/-- The messages of one thread: WHERE thread_id = tid. -/
def DB.threadMessages (db : DB) (tid : Nat) : List Message :=
  db.messages.filter (fun m => m.threadId == tid)

/-- SELECT coalesce(max(position), 0) + 1 for a thread (agent.py line 74). -/
def nextPosition (db : DB) (tid : Nat) : Nat :=
  ((db.threadMessages tid).map Message.position).foldl max 0 + 1

/-- create_message (agent.py lines 65-96): insert a message at the next
    position and update the parent thread's last_message_at in the same
    transaction. -/
def create_message (db : DB) (tid : Nat) (role : MessageRole) (content : String)
    (metadata : MessageMeta) (now : Nat) : DB × Message :=
  let msg : Message :=
    { id := db.nextMessageId, threadId := tid, position := nextPosition db tid,
      role := role, content := content, metadata := metadata }
  let db' : DB :=
    { db with
      messages := db.messages ++ [msg],
      nextMessageId := db.nextMessageId + 1,
      threads := db.threads.map fun t =>
        if t.id == tid then { t with lastMessageAt := some now } else t }
  (db', msg)

/-- Insertion into a list sorted by position descending; together with
    sortPosDesc this models ORDER BY position DESC. -/
def insertPosDesc (m : Message) : List Message → List Message
  | [] => [m]
  | x :: xs => if x.position ≤ m.position then m :: x :: xs else x :: insertPosDesc m xs

/-- Sort by position descending (the ORDER BY of agent.py line 104). -/
def sortPosDesc : List Message → List Message
  | [] => []
  | x :: xs => insertPosDesc x (sortPosDesc xs)

/-- get_chat_history (agent.py lines 99-110): the most recent `limit`
    messages of the thread, returned oldest first. -/
def get_chat_history (db : DB) (tid : Nat) (limit : Nat) : List Message :=
  ((sortPosDesc (db.threadMessages tid)).take limit).reverse

/-- A LangChain message as assembled for the orchestrator. -/
inductive ChatMsg
  | systemMsg (content : String)
  | humanMsg (content : String)
  | aiMsg (content : String)
deriving DecidableEq, Repr

/-- Role-for-role mapping of agent.py lines 195-200. -/
def toChatMsg (m : Message) : ChatMsg :=
  match m.role with
  | .user => .humanMsg m.content
  | .assistant => .aiMsg m.content
  | .system => .systemMsg m.content

/-- The orchestrator input assembled in agent.py lines 186-203: the system
    prompt, then the recent history with the just-created user message
    skipped, then the current user message. -/
def assembleInput (systemPrompt : String) (db : DB) (tid : Nat)
    (userMsgId : Nat) (payloadContent : String) : List ChatMsg :=
  ChatMsg.systemMsg systemPrompt ::
    (((get_chat_history db tid 20).filter (fun m => m.id != userMsgId)).map toChatMsg
      ++ [ChatMsg.humanMsg payloadContent])

/-- A chunk delivered by an on_chat_model_stream event; content = none
    models a chunk object lacking a content attribute (the hasattr check
    of agent.py line 222). -/
structure Chunk where
  content : Option String
deriving DecidableEq, Repr

/-- An orchestrator event, as discriminated by agent.py lines 215-259.
    The chunk is optional because event_data.get returns None when the
    key is absent; `other` stands for every event type the loop ignores. -/
inductive OrchEvent
  | chatModelStream (chunk : Option Chunk)
  | toolStart (name : String) (input : List (String × String))
  | toolEnd (name : String) (output : String)
  | other
deriving DecidableEq, Repr

/-- A server-sent event relayed to the client, with the payload shapes
    built in agent.py. -/
inductive SSE
  | token (content : String)
  | reasoning (title : String) (detail : String) (timestamp : Nat)
  | toolStart (tool : String) (input : List (String × String)) (timestamp : Nat)
  | toolEnd (tool : String) (output : String)
  | done (messageId : Nat) (runId : Nat) (content : String)
  | error (message : String)
deriving DecidableEq, Repr

/-- Whether an SSE is one of the two terminal events. -/
def SSE.isTerminal : SSE → Bool
  | .done _ _ _ => true
  | .error _ => true
  | _ => false

/-- Whether an SSE is a token event. -/
def SSE.isToken : SSE → Bool
  | .token _ => true
  | _ => false

/-- The content of a token event, and the empty string otherwise. -/
def SSE.tokenContent : SSE → String
  | .token c => c
  | _ => ""

/-- Concatenation, in order, of the contents of the token events of a
    relayed stream. -/
def tokenConcat : List SSE → String
  | [] => ""
  | e :: rest => e.tokenContent ++ tokenConcat rest

/-- tool_input.get(key, "") on the tool-input dict (agent.py lines 237-238). -/
def lookupD (input : List (String × String)) (key : String) : String :=
  match input.find? (fun p => p.1 == key) with
  | some p => p.2
  | none => ""

/-- In-memory state of the event loop: the token accumulator, the recorded
    reasoning steps and tool calls, and the SSE frames emitted so far. -/
structure GenState where
  currentTokens : String
  reasoningSteps : List ReasoningStep
  toolCallsMade : List ToolCallStep
  out : List SSE
deriving DecidableEq, Repr

/-- The loop state before the first orchestrator event (agent.py 206-209). -/
def GenState.init : GenState :=
  { currentTokens := "", reasoningSteps := [], toolCallsMade := [], out := [] }

/-- One iteration of the event loop of agent.py lines 211-259. -/
def stepEvent (now : Nat) (s : GenState) (e : OrchEvent) : GenState :=
  match e with
  | .chatModelStream chunk =>
    match chunk with
    | some c =>
      match c.content with
      | some token =>
        if token ≠ "" then
          { s with currentTokens := s.currentTokens ++ token,
                   out := s.out ++ [SSE.token token] }
        else s
      | none => s
    | none => s
  | .toolStart name input =>
    if name == "reason_step" then
      { s with
        reasoningSteps := s.reasoningSteps ++
          [{ title := lookupD input "title", detail := lookupD input "detail",
             timestamp := now }],
        out := s.out ++ [SSE.reasoning (lookupD input "title") (lookupD input "detail") now] }
    else
      { s with
        toolCallsMade := s.toolCallsMade ++ [{ tool := name, input := input, timestamp := now }],
        out := s.out ++ [SSE.toolStart name input now] }
  | .toolEnd name output => { s with out := s.out ++ [SSE.toolEnd name output] }
  | .other => s

/-- Run the event loop over a whole orchestrator stream. -/
def processEvents (now : Nat) (events : List OrchEvent) : GenState :=
  events.foldl (stepEvent now) GenState.init

/-- How one run's interaction with the orchestrator unfolds: an exception
    before the stream opens (building the agent or loading history), an
    exception mid-stream after a prefix of events, or clean exhaustion. -/
inductive RunScript
  | setupError (message : String)
  | streamError (events : List OrchEvent) (message : String)
  | clean (events : List OrchEvent)
deriving DecidableEq, Repr

/-- The orchestrator events that are actually consumed under a script. -/
def RunScript.events : RunScript → List OrchEvent
  | .setupError _ => []
  | .streamError evs _ => evs
  | .clean evs => evs

/-- The exception message raised under a script, if any. -/
def RunScript.errorMsg : RunScript → Option String
  | .setupError msg => some msg
  | .streamError _ msg => some msg
  | .clean _ => none

/-- The except branch of agent.py lines 296-303: unconditionally set the
    run failed, with the error message in its metadata and a completion
    timestamp.  There is no guard against the run already being terminal. -/
def failRun (db : DB) (runId : Nat) (msg : String) (now : Nat) : DB :=
  { db with runs := db.runs.map fun r =>
      if r.id == runId then
        { r with status := .failed, completedAt := some now, metadata := .error msg }
      else r }

/-- Lines 278-285: unconditionally set the run completed with its
    collected metadata and a completion timestamp. -/
def completeRun (db : DB) (runId : Nat) (rs : List ReasoningStep)
    (tc : List ToolCallStep) (now : Nat) : DB :=
  { db with runs := db.runs.map fun r =>
      if r.id == runId then
        { r with status := .completed, completedAt := some now, metadata := .success rs tc }
      else r }

/-- event_generator (agent.py lines 174-305): consume the orchestrator
    stream, relay SSE frames, and finalize the run; returns the relayed
    frames in order together with the final store state. -/
def event_generator (db : DB) (tid : Nat) (runId : Nat) (now : Nat)
    (script : RunScript) : List SSE × DB :=
  match script with
  | .setupError msg => ([SSE.error msg], failRun db runId msg now)
  | .streamError events msg =>
    let s := processEvents now events
    (s.out ++ [SSE.error msg], failRun db runId msg now)
  | .clean events =>
    let s := processEvents now events
    let final_content := if s.currentTokens ≠ "" then s.currentTokens else ""
    let p := create_message db tid .assistant final_content
      (.assistant s.reasoningSteps s.toolCallsMade runId) now
    let db2 := completeRun p.1 runId s.reasoningSteps s.toolCallsMade now
    (s.out ++ [SSE.done p.2.id runId final_content], db2)

/-- Everything run_agent_stream produces for one request. -/
structure RunOutcome where
  out : List SSE
  db : DB
  userMsg : Message
  run : Run
deriving DecidableEq, Repr

/-- run_agent_stream (agent.py lines 148-315): persist the inbound user
    message, create a running run record, then drive the event generator. -/
def run_agent_stream (db : DB) (tid : Nat) (payloadContent : String) (now : Nat)
    (script : RunScript) : RunOutcome :=
  let p := create_message db tid .user payloadContent .empty now
  let run : Run :=
    { id := p.1.nextRunId, threadId := tid, status := .running,
      metadata := .empty, startedAt := some now, completedAt := none }
  let db2 : DB := { p.1 with runs := p.1.runs ++ [run], nextRunId := p.1.nextRunId + 1 }
  let g := event_generator db2 tid run.id now script
  { out := g.1, db := g.2, userMsg := p.2, run := run }

/-- growth_stage.lower(), ASCII case folding as used by the tools. -/
def pyLower (s : String) : String :=
  String.mk (s.data.map Char.toLower)

/-- The stage_factors lookup of calculate_irrigation_schedule (tools.py
    lines 191-200): stage_factors.get(growth_stage.lower(), 0.7). -/
def stage_factor (growth_stage : String) : ℚ :=
  if pyLower growth_stage = "seedling" then 3/10
  else if pyLower growth_stage = "vegetative" then 6/10
  else if pyLower growth_stage = "flowering" then 8/10
  else if pyLower growth_stage = "fruiting" then 1
  else if pyLower growth_stage = "ripening" then 7/10
  else 7/10

/-- duration = int(base_duration * factor) with base_duration = 15
    (tools.py lines 199-201); int() truncates, and the product is never
    negative, so truncation is the floor. -/
def irrigation_duration (growth_stage : String) : ℤ :=
  Rat.floor ((15 : ℚ) * stage_factor growth_stage)

/-- The stage_npk lookup of recommend_fertigation (tools.py lines
    242-250): stage_npk.get(growth_stage.lower(), (5, 5, 5)). -/
def stage_npk (growth_stage : String) : ℤ × ℤ × ℤ :=
  if pyLower growth_stage = "seedling" then (5, 5, 5)
  else if pyLower growth_stage = "vegetative" then (10, 5, 8)
  else if pyLower growth_stage = "flowering" then (5, 10, 15)
  else if pyLower growth_stage = "fruiting" then (8, 12, 18)
  else if pyLower growth_stage = "ripening" then (3, 8, 12)
  else (5, 5, 5)

/-- The ro_blend_percent computation of analyze_water_quality (tools.py
    line 113): max(0, min(100, int((water_ec - 0.5) * 50))) when
    water_ec > 0.5, else 0; the int() argument is positive there, so
    truncation is the floor. -/
def ro_blend_percent (water_ec : ℚ) : ℤ :=
  if water_ec > 1/2 then max 0 (min 100 (Rat.floor ((water_ec - 1/2) * 50))) else 0

/-- The SSE frames the loop body relays for one orchestrator event
    (zero or one frame per event); used to state that the relayed stream
    preserves the orchestrator's emission order. -/
def relayOf (now : Nat) : OrchEvent → List SSE
  | .chatModelStream chunk =>
    match chunk with
    | some c =>
      match c.content with
      | some token => if token ≠ "" then [SSE.token token] else []
      | none => []
    | none => []
  | .toolStart name input =>
    if name == "reason_step" then
      [SSE.reasoning (lookupD input "title") (lookupD input "detail") now]
    else [SSE.toolStart name input now]
  | .toolEnd name output => [SSE.toolEnd name output]
  | .other => []

/-- An on_chat_model_stream event the loop silently skips: no chunk, a
    chunk without a content attribute, or an empty content string
    (agent.py lines 220-224). -/
def isSkippedChunk : OrchEvent → Bool
  | .chatModelStream none => true
  | .chatModelStream (some c) =>
    match c.content with
    | none => true
    | some t => t == ""
  | _ => false

/-- The position column of one thread's messages, in store order. -/
def messagePositions (db : DB) (tid : Nat) : List Nat :=
  (db.threadMessages tid).map Message.position

/-- The recognized growth stages of the two stage tables in tools.py. -/
def knownStages : List String :=
  ["seedling", "vegetative", "flowering", "fruiting", "ripening"]

/-- A small store with one empty thread, shared by the concrete witnesses. -/
def sampleDB : DB :=
  { threads := [{ id := 7, userId := 1, lastMessageAt := none }],
    messages := [], runs := [], nextMessageId := 0, nextRunId := 0 }

/-- A store with one thread holding two prior turns, shared by the
    concrete witnesses. -/
def sampleDB2 : DB :=
  { threads := [{ id := 7, userId := 1, lastMessageAt := some 1 }],
    messages :=
      [{ id := 0, threadId := 7, position := 1, role := .user, content := "q1",
         metadata := .empty },
       { id := 1, threadId := 7, position := 2, role := .assistant, content := "a1",
         metadata := .empty }],
    runs := [], nextMessageId := 2, nextRunId := 0 }

/-- A concrete failing script: two relayed tokens, then an exception. -/
def sampleScript : RunScript :=
  .streamError [OrchEvent.chatModelStream (some ⟨some "He"⟩),
    OrchEvent.chatModelStream (some ⟨some "llo"⟩)] "boom"

/-- A concrete clean stream holding one tool round and no token events. -/
def sampleEvents : List OrchEvent :=
  [.toolStart "analyze_soil_conditions" [("zone_id", "A")],
   .toolEnd "analyze_soil_conditions" "ok"]

/-! ## Helper lemmas -/

theorem tokenConcat_append (l1 l2 : List SSE) :
    tokenConcat (l1 ++ l2) = tokenConcat l1 ++ tokenConcat l2 := by
  induction l1 with
  | nil => simp [tokenConcat, String.empty_append]
  | cons e rest ih => simp [tokenConcat, ih, String.append_assoc]

theorem stepEvent_out (now : Nat) (s : GenState) (e : OrchEvent) :
    (stepEvent now s e).out = s.out ++ relayOf now e := by
  cases e with
  | chatModelStream chunk =>
    cases chunk with
    | none => simp [stepEvent, relayOf]
    | some c =>
      obtain ⟨oc⟩ := c
      cases oc with
      | none => simp [stepEvent, relayOf]
      | some t => by_cases ht : t = "" <;> simp [stepEvent, relayOf, ht]
  | toolStart name input =>
    cases h : name == "reason_step" <;> simp [stepEvent, relayOf, h]
  | toolEnd name output => simp [stepEvent, relayOf]
  | other => simp [stepEvent, relayOf]

theorem foldl_stepEvent_out (now : Nat) (events : List OrchEvent) (s : GenState) :
    (events.foldl (stepEvent now) s).out = s.out ++ events.flatMap (relayOf now) := by
  induction events generalizing s with
  | nil => simp
  | cons e rest ih =>
    simp [List.foldl_cons, ih, stepEvent_out, List.append_assoc]

theorem stepEvent_currentTokens (now : Nat) (s : GenState) (e : OrchEvent) :
    (stepEvent now s e).currentTokens = s.currentTokens ++ tokenConcat (relayOf now e) := by
  cases e with
  | chatModelStream chunk =>
    cases chunk with
    | none => simp [stepEvent, relayOf, tokenConcat, String.append_empty]
    | some c =>
      obtain ⟨oc⟩ := c
      cases oc with
      | none => simp [stepEvent, relayOf, tokenConcat, String.append_empty]
      | some t =>
        by_cases ht : t = "" <;>
          simp [stepEvent, relayOf, ht, tokenConcat, SSE.tokenContent, String.append_empty]
  | toolStart name input =>
    cases h : name == "reason_step" <;>
      simp [stepEvent, relayOf, h, tokenConcat, SSE.tokenContent, String.append_empty]
  | toolEnd name output =>
    simp [stepEvent, relayOf, tokenConcat, SSE.tokenContent, String.append_empty]
  | other => simp [stepEvent, relayOf, tokenConcat, String.append_empty]

theorem foldl_stepEvent_currentTokens (now : Nat) (events : List OrchEvent) (s : GenState) :
    (events.foldl (stepEvent now) s).currentTokens
      = s.currentTokens ++ tokenConcat (events.flatMap (relayOf now)) := by
  induction events generalizing s with
  | nil => simp [tokenConcat, String.append_empty]
  | cons e rest ih =>
    simp [List.foldl_cons, ih, stepEvent_currentTokens, tokenConcat_append, String.append_assoc]

theorem processEvents_currentTokens (now : Nat) (events : List OrchEvent) :
    (processEvents now events).currentTokens = tokenConcat (processEvents now events).out := by
  simp [processEvents, foldl_stepEvent_out, foldl_stepEvent_currentTokens, GenState.init,
    String.empty_append]

theorem relayOf_not_terminal (now : Nat) (e : OrchEvent) :
    ∀ x ∈ relayOf now e, x.isTerminal = false := by
  intro x hx
  cases e with
  | chatModelStream chunk =>
    cases chunk with
    | none => simp [relayOf] at hx
    | some c =>
      obtain ⟨oc⟩ := c
      cases oc with
      | none => simp [relayOf] at hx
      | some t =>
        by_cases ht : t = "" <;> simp [relayOf, ht] at hx
        subst hx; rfl
  | toolStart name input =>
    cases h : name == "reason_step" <;> simp [relayOf, h] at hx <;> (subst hx; rfl)
  | toolEnd name output => simp [relayOf] at hx; subst hx; rfl
  | other => simp [relayOf] at hx

theorem relayOf_token_nonempty (now : Nat) (e : OrchEvent) (c : String)
    (hx : SSE.token c ∈ relayOf now e) : c ≠ "" := by
  cases e with
  | chatModelStream chunk =>
    cases chunk with
    | none => simp [relayOf] at hx
    | some ch =>
      obtain ⟨oc⟩ := ch
      cases oc with
      | none => simp [relayOf] at hx
      | some t =>
        by_cases ht : t = "" <;> simp [relayOf, ht] at hx
        subst hx; exact ht
  | toolStart name input =>
    cases h : name == "reason_step" <;> simp [relayOf, h] at hx
  | toolEnd name output => simp [relayOf] at hx
  | other => simp [relayOf] at hx

theorem stepEvent_skipped (now : Nat) (s : GenState) (e : OrchEvent)
    (h : isSkippedChunk e = true) : stepEvent now s e = s := by
  cases e with
  | chatModelStream chunk =>
    cases chunk with
    | none => rfl
    | some c =>
      obtain ⟨oc⟩ := c
      cases oc with
      | none => rfl
      | some t =>
        simp [isSkippedChunk] at h
        simp [stepEvent, h]
  | toolStart name input => simp [isSkippedChunk] at h
  | toolEnd name output => simp [isSkippedChunk] at h
  | other => simp [isSkippedChunk] at h

theorem foldl_stepEvent_filter_skipped (now : Nat) (events : List OrchEvent) (s : GenState) :
    (events.filter (fun e => !isSkippedChunk e)).foldl (stepEvent now) s
      = events.foldl (stepEvent now) s := by
  induction events generalizing s with
  | nil => rfl
  | cons e rest ih =>
    cases hse : isSkippedChunk e with
    | true =>
      rw [List.filter_cons]
      simp only [hse, Bool.not_true]
      rw [if_neg (by simp), ih, List.foldl_cons, stepEvent_skipped now s e hse]
    | false =>
      rw [List.filter_cons]
      simp only [hse, Bool.not_false, if_pos, List.foldl_cons]
      exact ih (stepEvent now s e)

theorem tokenConcat_of_no_token (l : List SSE)
    (h : ∀ e ∈ l, e.isToken = false) : tokenConcat l = "" := by
  induction l with
  | nil => rfl
  | cons e rest ih =>
    have he : e.tokenContent = "" := by
      cases e <;> simp_all [SSE.isToken, SSE.tokenContent]
    rw [tokenConcat, he, String.empty_append]
    exact ih fun x hx => h x (List.mem_cons_of_mem _ hx)

theorem insertPosDesc_all_lt (m : Message) (l : List Message)
    (h : ∀ a ∈ l, m.position < a.position) : insertPosDesc m l = l ++ [m] := by
  induction l with
  | nil => rfl
  | cons x xs ih =>
    have hx : ¬ x.position ≤ m.position := not_le.mpr (h x (by simp))
    simp only [insertPosDesc, if_neg hx, List.cons_append, List.cons.injEq, true_and]
    exact ih fun a ha => h a (List.mem_cons_of_mem _ ha)

theorem sortPosDesc_of_pairwise (l : List Message)
    (h : l.Pairwise (fun a b => a.position < b.position)) :
    sortPosDesc l = l.reverse := by
  induction l with
  | nil => rfl
  | cons x xs ih =>
    rw [sortPosDesc, ih (List.Pairwise.of_cons h)]
    rw [insertPosDesc_all_lt x xs.reverse
      (fun a ha => (List.pairwise_cons.mp h).1 a (List.mem_reverse.mp ha))]
    simp

theorem foldl_max_init_le (l : List Nat) (a : Nat) : a ≤ l.foldl max a := by
  induction l generalizing a with
  | nil => exact le_refl a
  | cons b l ih => exact le_trans (le_max_left a b) (ih (max a b))

theorem le_foldl_max (l : List Nat) (a x : Nat) (hx : x ∈ l) : x ≤ l.foldl max a := by
  induction l generalizing a with
  | nil => cases hx
  | cons b l ih =>
    rcases List.mem_cons.mp hx with h | h
    · subst h
      exact le_trans (le_max_right a x) (foldl_max_init_le l (max a x))
    · exact ih (max a b) h

theorem foldl_max_range (k : Nat) : (List.range' 1 k).foldl max 0 = k := by
  induction k with
  | zero => rfl
  | succ n ih =>
    rw [List.range'_concat, List.foldl_append, ih]
    simp [Nat.max_eq_right, Nat.le_succ]
    omega

theorem threadMessages_create (db : DB) (tid : Nat) (role : MessageRole) (content : String)
    (metadata : MessageMeta) (now : Nat) :
    ((create_message db tid role content metadata now).1).threadMessages tid
      = db.threadMessages tid ++ [(create_message db tid role content metadata now).2] := by
  simp [create_message, DB.threadMessages, List.filter_append]

theorem create_message_position (db : DB) (tid : Nat) (role : MessageRole) (content : String)
    (metadata : MessageMeta) (now : Nat) :
    ((create_message db tid role content metadata now).2).position
      = (messagePositions db tid).foldl max 0 + 1 := rfl

theorem nextPosition_create (db : DB) (tid : Nat) (role : MessageRole) (content : String)
    (metadata : MessageMeta) (now : Nat) :
    nextPosition ((create_message db tid role content metadata now).1) tid
      = nextPosition db tid + 1 := by
  have hm : ((create_message db tid role content metadata now).2).position
      = ((db.threadMessages tid).map Message.position).foldl max 0 + 1 := rfl
  simp only [nextPosition, threadMessages_create, List.map_append, List.foldl_append,
    List.map_cons, List.map_nil, List.foldl_cons, List.foldl_nil, hm]
  rw [Nat.max_eq_right (Nat.le_succ _)]

theorem pairwise_threadMessages_create (db : DB) (tid : Nat) (role : MessageRole)
    (content : String) (metadata : MessageMeta) (now : Nat)
    (hasc : (db.threadMessages tid).Pairwise (fun a b => a.position < b.position)) :
    (((create_message db tid role content metadata now).1).threadMessages tid).Pairwise
      (fun a b => a.position < b.position) := by
  rw [threadMessages_create]
  refine List.pairwise_append.mpr ⟨hasc, List.pairwise_singleton _ _, ?_⟩
  intro a ha b hb
  rw [List.mem_singleton] at hb
  subst hb
  rw [create_message_position]
  have : a.position ≤ (messagePositions db tid).foldl max 0 :=
    le_foldl_max _ _ _ (List.mem_map_of_mem Message.position ha)
  omega

theorem processEvents_out (now : Nat) (events : List OrchEvent) :
    (processEvents now events).out = events.flatMap (relayOf now) := by
  simp [processEvents, foldl_stepEvent_out, GenState.init]

theorem final_content_if (s : String) : (if s ≠ "" then s else "") = s := by
  by_cases h : s = "" <;> simp [h]

theorem event_generator_out_decomp (db : DB) (tid runId now : Nat) (script : RunScript) :
    ∃ t, (event_generator db tid runId now script).1
        = script.events.flatMap (relayOf now) ++ [t] ∧ t.isTerminal = true := by
  cases script with
  | setupError m =>
    exact ⟨SSE.error m, by simp [event_generator, RunScript.events], rfl⟩
  | streamError evs m =>
    exact ⟨SSE.error m, by simp [event_generator, RunScript.events, processEvents_out], rfl⟩
  | clean evs =>
    refine ⟨SSE.done db.nextMessageId runId (processEvents now evs).currentTokens, ?_, rfl⟩
    simp [event_generator, RunScript.events, processEvents_out, final_content_if, create_message]
    intro h
    exact h.symm

theorem failRun_mem (db : DB) (runId : Nat) (msg : String) (now : Nat) (r : Run)
    (hr : r ∈ db.runs) (hid : r.id = runId) :
    { r with status := RunStatus.failed, completedAt := some now,
             metadata := RunMeta.error msg } ∈ (failRun db runId msg now).runs := by
  refine List.mem_map.mpr ⟨r, hr, ?_⟩
  simp [hid]

theorem completeRun_mem (db : DB) (runId : Nat) (rs : List ReasoningStep)
    (tc : List ToolCallStep) (now : Nat) (r : Run) (hr : r ∈ db.runs) (hid : r.id = runId) :
    { r with status := RunStatus.completed, completedAt := some now,
             metadata := RunMeta.success rs tc } ∈ (completeRun db runId rs tc now).runs := by
  refine List.mem_map.mpr ⟨r, hr, ?_⟩
  simp [hid]

/-! ## Claims -/

/-- C1: when the orchestrator stream is consumed to exhaustion without an
    exception, the terminal done event is the last relayed frame, its
    content equals the concatenation in emission order of the contents of
    all relayed token events (the empty string when there were none), it
    is the only terminal frame, and the persisted assistant message
    carries that same content. -/
theorem done_content_is_token_concat (db : DB) (tid runId now : Nat)
    (events : List OrchEvent) :
    ∃ mid content,
      (event_generator db tid runId now (.clean events)).1.getLast?
          = some (SSE.done mid runId content)
      ∧ content = tokenConcat (event_generator db tid runId now (.clean events)).1
      ∧ (event_generator db tid runId now (.clean events)).1.countP SSE.isTerminal = 1
      ∧ ∃ m ∈ (event_generator db tid runId now (.clean events)).2.messages,
          m.id = mid ∧ m.role = MessageRole.assistant ∧ m.content = content := by
  have hout : (event_generator db tid runId now (.clean events)).1
      = (processEvents now events).out
        ++ [SSE.done db.nextMessageId runId (processEvents now events).currentTokens] := by
    simp [event_generator, final_content_if, create_message]
    intro h
    exact h.symm
  refine ⟨db.nextMessageId, (processEvents now events).currentTokens, ?_, ?_, ?_, ?_⟩
  · rw [hout]
    exact List.getLast?_concat _
  · conv_lhs => rw [processEvents_currentTokens now events]
    rw [hout, tokenConcat_append]
    simp [tokenConcat, SSE.tokenContent, String.append_empty]
  · rw [hout, List.countP_append]
    have h0 : (processEvents now events).out.countP SSE.isTerminal = 0 := by
      rw [processEvents_out]
      refine List.countP_eq_zero.mpr ?_
      intro x hx
      obtain ⟨e, _, hmem⟩ := List.mem_flatMap.mp hx
      simp [relayOf_not_terminal now e x hmem]
    rw [h0]
    rfl
  · refine ⟨{ id := db.nextMessageId,
              threadId := tid,
              position := nextPosition db tid,
              role := .assistant,
              content := (processEvents now events).currentTokens,
              metadata := .assistant (processEvents now events).reasoningSteps
                (processEvents now events).toolCallsMade runId }, ?_, rfl, rfl, rfl⟩
    simp [event_generator, create_message, completeRun, final_content_if]
    right
    by_cases h : (processEvents now events).currentTokens = "" <;> simp [h]

/-- C6: for every script the client-observed stream is the per-event
    relays in exactly the orchestrator's emission order, followed by a
    single terminal frame; no terminal frame occurs earlier. -/
theorem relay_order_single_terminal (db : DB) (tid runId now : Nat) (script : RunScript) :
    ((event_generator db tid runId now script).1).dropLast
        = script.events.flatMap (relayOf now)
      ∧ (∀ e ∈ ((event_generator db tid runId now script).1).dropLast, e.isTerminal = false)
      ∧ ∃ t, ((event_generator db tid runId now script).1).getLast? = some t
          ∧ t.isTerminal = true := by
  obtain ⟨t, ht, hterm⟩ := event_generator_out_decomp db tid runId now script
  rw [ht]
  refine ⟨List.dropLast_concat, ?_, t, List.getLast?_concat _, hterm⟩
  intro e he
  rw [List.dropLast_concat] at he
  obtain ⟨e0, _, hmem⟩ := List.mem_flatMap.mp he
  exact relayOf_not_terminal now e0 e hmem

/-- C8: a tool_start named reason_step is relayed as a reasoning frame
    carrying title, detail and timestamp and recorded among the reasoning
    steps, leaving the tool-call record untouched; any other tool_start is
    relayed as a tool_call frame and recorded among the tool calls,
    leaving the reasoning record untouched. -/
theorem tool_start_dispatch (now : Nat) (s : GenState) (name : String)
    (input : List (String × String)) :
    stepEvent now s (.toolStart name input) =
      if name = "reason_step" then
        { s with
          reasoningSteps := s.reasoningSteps ++
            [{ title := lookupD input "title", detail := lookupD input "detail",
               timestamp := now }],
          out := s.out ++ [SSE.reasoning (lookupD input "title") (lookupD input "detail") now] }
      else
        { s with
          toolCallsMade := s.toolCallsMade ++ [{ tool := name, input := input, timestamp := now }],
          out := s.out ++ [SSE.toolStart name input now] } := by
  by_cases h : name = "reason_step" <;> simp [stepEvent, h]

/-- C9: every relayed token frame carries a non-empty content, and
    dropping the skipped chunks (no chunk, no content attribute, empty
    content) from the orchestrator stream leaves the whole loop state,
    including the accumulated final content, unchanged. -/
theorem token_nonempty_and_skips_inert (now : Nat) (events : List OrchEvent) :
    (∀ c : String, SSE.token c ∈ (processEvents now events).out → c ≠ "")
    ∧ processEvents now (events.filter fun e => !isSkippedChunk e)
        = processEvents now events := by
  constructor
  · intro c hc
    rw [processEvents_out] at hc
    obtain ⟨e, _, hmem⟩ := List.mem_flatMap.mp hc
    exact relayOf_token_nonempty now e c hmem
  · exact foldl_stepEvent_filter_skipped now events GenState.init

/-- C9 witness: a concrete stream with one real token and two skipped
    chunks. -/
theorem token_nonempty_and_skips_inert_witness :
    ("He" ≠ "")
    ∧ processEvents 0 ([OrchEvent.chatModelStream (some ⟨some "He"⟩),
          OrchEvent.chatModelStream (some ⟨some ""⟩),
          OrchEvent.chatModelStream none].filter fun e => !isSkippedChunk e)
        = processEvents 0 [OrchEvent.chatModelStream (some ⟨some "He"⟩),
            OrchEvent.chatModelStream (some ⟨some ""⟩),
            OrchEvent.chatModelStream none] :=
  ⟨(token_nonempty_and_skips_inert 0 [OrchEvent.chatModelStream (some ⟨some "He"⟩),
      OrchEvent.chatModelStream (some ⟨some ""⟩),
      OrchEvent.chatModelStream none]).1 "He" (by decide),
   (token_nonempty_and_skips_inert 0 [OrchEvent.chatModelStream (some ⟨some "He"⟩),
      OrchEvent.chatModelStream (some ⟨some ""⟩),
      OrchEvent.chatModelStream none]).2⟩

/-- C3 counterexample: the finalization code has no InvalidState guard;
    finalizing a run that is already completed silently overwrites the
    earlier terminal state with failed instead of failing. -/
theorem finalize_overwrites_terminal :
    (failRun
      { threads := [], messages := [],
        runs := [{ id := 0, threadId := 0, status := .completed, metadata := .empty,
                   startedAt := some 0, completedAt := some 1 }],
        nextMessageId := 0, nextRunId := 1 } 0 "late failure" 2).runs
    = [{ id := 0, threadId := 0, status := .failed, metadata := .error "late failure",
         startedAt := some 0, completedAt := some 2 }] := by
  decide

/-- C3 amended: run finalization is unconditional — it sets the requested
    terminal status, metadata and completion timestamp on the matching run
    whatever its prior status, with no InvalidState rejection; and one
    execution of the run pipeline performs exactly one terminal
    transition, leaving the run failed on the error path and completed on
    the clean path, with its completion timestamp set. -/
theorem run_finalization_unconditional :
    (∀ (db : DB) (runId : Nat) (msg : String) (now : Nat) (r : Run),
      r ∈ db.runs → r.id = runId →
        { r with status := RunStatus.failed, completedAt := some now,
                 metadata := RunMeta.error msg } ∈ (failRun db runId msg now).runs)
    ∧ ∀ (db : DB) (tid : Nat) (payload : String) (now : Nat) (script : RunScript),
        ∃ r ∈ (run_agent_stream db tid payload now script).db.runs,
          r.id = (run_agent_stream db tid payload now script).run.id
          ∧ r.completedAt = some now
          ∧ r.status
              = if script.errorMsg.isSome then RunStatus.failed else RunStatus.completed := by
  constructor
  · exact fun db runId msg now r hr hid => failRun_mem db runId msg now r hr hid
  · intro db tid payload now script
    cases script with
    | setupError m =>
      exact ⟨_, failRun_mem _ _ m now _
        (List.mem_append_right _ (List.mem_singleton_self _)) rfl, rfl, rfl, rfl⟩
    | streamError evs m =>
      exact ⟨_, failRun_mem _ _ m now _
        (List.mem_append_right _ (List.mem_singleton_self _)) rfl, rfl, rfl, rfl⟩
    | clean evs =>
      exact ⟨_, completeRun_mem _ _ _ _ now _
        (List.mem_append_right _ (List.mem_singleton_self _)) rfl, rfl, rfl, rfl⟩

/-- C3 amended witness: finalizing an already-cancelled (terminal) run
    overwrites it, and a concrete clean run ends completed. -/
theorem run_finalization_unconditional_witness :
    ({ id := 3, threadId := 0, status := RunStatus.failed, metadata := RunMeta.error "x",
       startedAt := some 0, completedAt := some 9 } : Run) ∈
      (failRun
        { threads := [], messages := [],
          runs := [{ id := 3, threadId := 0, status := RunStatus.cancelled,
                     metadata := RunMeta.empty, startedAt := some 0, completedAt := some 5 }],
          nextMessageId := 0, nextRunId := 4 } 3 "x" 9).runs :=
  run_finalization_unconditional.1
    { threads := [], messages := [],
      runs := [{ id := 3, threadId := 0, status := RunStatus.cancelled,
                 metadata := RunMeta.empty, startedAt := some 0, completedAt := some 5 }],
      nextMessageId := 0, nextRunId := 4 } 3 "x" 9
    { id := 3, threadId := 0, status := RunStatus.cancelled, metadata := RunMeta.empty,
      startedAt := some 0, completedAt := some 5 }
    (List.mem_singleton_self _) rfl

/-- C7: the advisory tools are total on their embedded domains — an
    unrecognized growth stage falls back to the default coefficient 0.7
    for irrigation and to the default NPK (5, 5, 5) for fertigation, and
    the RO-blend percentage is always clamped into the range 0 to 100. -/
theorem tools_default_and_clamp :
    (∀ growth_stage : String, pyLower growth_stage ∉ knownStages →
      stage_factor growth_stage = 7/10 ∧ stage_npk growth_stage = (5, 5, 5))
    ∧ ∀ water_ec : ℚ, 0 ≤ ro_blend_percent water_ec ∧ ro_blend_percent water_ec ≤ 100 := by
  constructor
  · intro gs h
    simp only [knownStages, List.mem_cons, List.not_mem_nil, or_false, not_or] at h
    obtain ⟨h1, h2, h3, h4, h5⟩ := h
    exact ⟨by simp [stage_factor, h1, h2, h3, h4, h5],
      by simp [stage_npk, h1, h2, h3, h4, h5]⟩
  · intro ec
    unfold ro_blend_percent
    by_cases h : ec > 1/2
    · rw [if_pos h]
      exact ⟨le_max_left 0 _, max_le (by norm_num) (min_le_left _ _)⟩
    · rw [if_neg h]
      norm_num

/-- C7 witness: the unrecognized stage Budding gets the defaults, and a
    high-salinity reading keeps the blend inside 0..100. -/
theorem tools_default_and_clamp_witness :
    (stage_factor "Budding" = 7/10 ∧ stage_npk "Budding" = (5, 5, 5))
    ∧ (0 ≤ ro_blend_percent (9/5) ∧ ro_blend_percent (9/5) ≤ 100) :=
  ⟨tools_default_and_clamp.1 "Budding" (by decide), tools_default_and_clamp.2 (9/5)⟩

/-- C4: appending a message assigns position one greater than the current
    maximum of the thread (1 on an empty thread), keeps the thread's
    position column a gapless strictly increasing sequence 1..k+1, and
    updates the parent thread's last-activity timestamp in the same
    transaction. -/
theorem append_message_gapless (db : DB) (tid : Nat) (role : MessageRole) (content : String)
    (metadata : MessageMeta) (now : Nat) (k : Nat)
    (hpos : messagePositions db tid = List.range' 1 k) :
    ((create_message db tid role content metadata now).2).position = k + 1
    ∧ messagePositions ((create_message db tid role content metadata now).1) tid
        = List.range' 1 (k + 1)
    ∧ ∀ t ∈ ((create_message db tid role content metadata now).1).threads,
        t.id = tid → t.lastMessageAt = some now := by
  have hmax : (messagePositions db tid).foldl max 0 = k := by
    rw [hpos]
    exact foldl_max_range k
  have hposnew : ((create_message db tid role content metadata now).2).position = k + 1 := by
    rw [create_message_position, hmax]
  refine ⟨hposnew, ?_, ?_⟩
  · unfold messagePositions at hpos ⊢
    rw [threadMessages_create, List.map_append, hpos, List.map_cons, List.map_nil, hposnew,
      List.range'_concat]
    norm_num
    omega
  · intro t ht htid
    simp only [create_message] at ht
    obtain ⟨t0, _, rfl⟩ := List.mem_map.mp ht
    by_cases h0 : (t0.id == tid) = true
    · simp [h0]
    · rw [if_neg h0] at htid ⊢
      exact absurd (beq_iff_eq.mpr htid) h0

/-- C4 witness: the first append on an empty thread gets position 1 and
    stamps the thread. -/
theorem append_message_gapless_witness :
    messagePositions sampleDB 7 = List.range' 1 0
    ∧ (((create_message sampleDB 7 .user "hi" .empty 4).2).position = 0 + 1
      ∧ messagePositions ((create_message sampleDB 7 .user "hi" .empty 4).1) 7
          = List.range' 1 (0 + 1)
      ∧ ∀ t ∈ ((create_message sampleDB 7 .user "hi" .empty 4).1).threads,
          t.id = 7 → t.lastMessageAt = some 4) :=
  ⟨rfl, append_message_gapless sampleDB 7 .user "hi" .empty 4 0 rfl⟩

/-- C5: after the inbound user message is appended, the orchestrator
    input is the system block, then the trailing (at most 19 remaining of
    the 20 most recent) prior messages of the thread oldest first mapped
    role-for-role — the just-appended user message is excluded from this
    replay — then the inbound user message exactly once as the final
    entry. -/
theorem assembled_history_shape (sp : String) (db : DB) (tid : Nat) (payload : String)
    (now : Nat)
    (hasc : (db.threadMessages tid).Pairwise fun a b => a.position < b.position)
    (hfresh : ∀ m ∈ db.messages, m.id < db.nextMessageId) :
    assembleInput sp ((create_message db tid .user payload .empty now).1) tid
        ((create_message db tid .user payload .empty now).2).id payload
      = ChatMsg.systemMsg sp ::
          ((((db.threadMessages tid).reverse.take 19).reverse.map toChatMsg)
            ++ [ChatMsg.humanMsg payload]) := by
  have hpw := pairwise_threadMessages_create db tid .user payload .empty now hasc
  have hhist : get_chat_history ((create_message db tid .user payload .empty now).1) tid 20
      = ((db.threadMessages tid).reverse.take 19).reverse
          ++ [(create_message db tid .user payload .empty now).2] := by
    unfold get_chat_history
    rw [sortPosDesc_of_pairwise _ hpw, threadMessages_create, List.reverse_append,
      List.reverse_singleton, List.singleton_append,
      show (20 : Nat) = 19 + 1 from rfl, List.take_succ_cons, List.reverse_cons]
  have hfilter : ((((db.threadMessages tid).reverse.take 19).reverse
        ++ [(create_message db tid .user payload .empty now).2]).filter
          (fun m => m.id != ((create_message db tid .user payload .empty now).2).id))
      = ((db.threadMessages tid).reverse.take 19).reverse := by
    rw [List.filter_append]
    have h2 : ([(create_message db tid .user payload .empty now).2].filter
        (fun m => m.id != ((create_message db tid .user payload .empty now).2).id)) = [] := by
      simp
    have h1 : ((((db.threadMessages tid).reverse.take 19).reverse).filter
        (fun m => m.id != ((create_message db tid .user payload .empty now).2).id))
        = ((db.threadMessages tid).reverse.take 19).reverse := by
      refine List.filter_eq_self.mpr ?_
      intro a ha
      have hmem : a ∈ db.threadMessages tid :=
        List.mem_reverse.mp (List.take_subset _ _ (List.mem_reverse.mp ha))
      have hlt := hfresh a (List.mem_of_mem_filter hmem)
      have hid : ((create_message db tid .user payload .empty now).2).id
          = db.nextMessageId := rfl
      rw [hid]
      simp only [bne_iff_ne, ne_eq]
      omega
    rw [h1, h2, List.append_nil]
  unfold assembleInput
  rw [hhist, hfilter]

/-- C5 witness: on a thread with two prior turns, the assembled input is
    the system block, both prior turns, and the new user message once. -/
theorem assembled_history_shape_witness :
    ((sampleDB2.threadMessages 7).Pairwise fun a b => a.position < b.position)
    ∧ (∀ m ∈ sampleDB2.messages, m.id < sampleDB2.nextMessageId)
    ∧ assembleInput "sys" ((create_message sampleDB2 7 .user "q2" .empty 9).1) 7
        ((create_message sampleDB2 7 .user "q2" .empty 9).2).id "q2"
      = ChatMsg.systemMsg "sys" ::
          ((((sampleDB2.threadMessages 7).reverse.take 19).reverse.map toChatMsg)
            ++ [ChatMsg.humanMsg "q2"]) :=
  ⟨by decide, by decide,
    assembled_history_shape "sys" sampleDB2 7 "q2" 9 (by decide) (by decide)⟩

/-- C2: when the run raises — before the stream opens or mid-stream — the
    store keeps exactly the one inbound user message (no assistant message
    is persisted), the run is left failed with the error message in its
    metadata and a completion timestamp, and the client stream is the
    successfully relayed prefix followed by one terminal error frame. -/
theorem failed_run_no_assistant (db : DB) (tid : Nat) (payload : String) (now : Nat)
    (script : RunScript) (msg : String) (h : script.errorMsg = some msg) :
    (run_agent_stream db tid payload now script).db.messages
        = db.messages ++ [(run_agent_stream db tid payload now script).userMsg]
      ∧ (∃ r ∈ (run_agent_stream db tid payload now script).db.runs,
          r.id = (run_agent_stream db tid payload now script).run.id
          ∧ r.status = RunStatus.failed ∧ r.metadata = RunMeta.error msg
          ∧ r.completedAt = some now)
      ∧ (run_agent_stream db tid payload now script).out
          = (processEvents now script.events).out ++ [SSE.error msg] := by
  cases script with
  | clean evs => exact absurd h (by simp [RunScript.errorMsg])
  | setupError m =>
    obtain rfl : m = msg := Option.some.inj h
    exact ⟨rfl, ⟨_, failRun_mem _ _ m now _
      (List.mem_append_right _ (List.mem_singleton_self _)) rfl, rfl, rfl, rfl, rfl⟩, rfl⟩
  | streamError evs m =>
    obtain rfl : m = msg := Option.some.inj h
    exact ⟨rfl, ⟨_, failRun_mem _ _ m now _
      (List.mem_append_right _ (List.mem_singleton_self _)) rfl, rfl, rfl, rfl, rfl⟩, rfl⟩

/-- C10: a stream that ends cleanly with no token frame still persists an
    assistant message with empty content at the next position, still marks
    the run completed, and still ends the stream with a done frame whose
    content is the empty string. -/
theorem no_token_run_completes (db : DB) (tid : Nat) (payload : String) (now : Nat)
    (events : List OrchEvent)
    (h : ((processEvents now events).out.all fun e => !e.isToken) = true) :
    (∃ amsg : Message,
      (run_agent_stream db tid payload now (.clean events)).db.messages
          = db.messages
            ++ [(run_agent_stream db tid payload now (.clean events)).userMsg, amsg]
        ∧ amsg.role = MessageRole.assistant ∧ amsg.content = ""
        ∧ amsg.position
            = (run_agent_stream db tid payload now (.clean events)).userMsg.position + 1)
    ∧ (∃ r ∈ (run_agent_stream db tid payload now (.clean events)).db.runs,
        r.id = (run_agent_stream db tid payload now (.clean events)).run.id
        ∧ r.status = RunStatus.completed ∧ r.completedAt = some now)
    ∧ (run_agent_stream db tid payload now (.clean events)).out.getLast?
        = some (SSE.done (db.nextMessageId + 1)
            (run_agent_stream db tid payload now (.clean events)).run.id "") := by
  have hnt : ∀ e ∈ (processEvents now events).out, e.isToken = false := by
    intro e he
    have := List.all_eq_true.mp h e he
    simpa using this
  have hct : (processEvents now events).currentTokens = "" := by
    rw [processEvents_currentTokens]
    exact tokenConcat_of_no_token _ hnt
  have hfc : (if (processEvents now events).currentTokens ≠ ""
      then (processEvents now events).currentTokens else "") = "" := by
    rw [final_content_if, hct]
  refine ⟨⟨{ id := db.nextMessageId + 1,
             threadId := tid,
             position := nextPosition ((create_message db tid .user payload .empty now).1) tid,
             role := .assistant,
             content := "",
             metadata := .assistant (processEvents now events).reasoningSteps
               (processEvents now events).toolCallsMade
               ((create_message db tid .user payload .empty now).1).nextRunId },
      ?_, rfl, rfl, ?_⟩, ?_, ?_⟩
  · simp [run_agent_stream, event_generator, create_message, completeRun, hfc, hct]
    rfl
  · exact nextPosition_create db tid .user payload .empty now
  · exact ⟨_, completeRun_mem _ _ _ _ now _
      (List.mem_append_right _ (List.mem_singleton_self _)) rfl, rfl, rfl, rfl⟩
  · have hout : (run_agent_stream db tid payload now (.clean events)).out
        = (processEvents now events).out
          ++ [SSE.done (db.nextMessageId + 1)
              (run_agent_stream db tid payload now (.clean events)).run.id ""] := by
      simp [run_agent_stream, event_generator, create_message, hfc, hct]
    rw [hout]
    exact List.getLast?_concat _

/-- C2 witness: the spec scenario — the orchestrator raises after two
    relayed tokens; the run fails, only the user message is stored, and
    the client sees the two tokens then one error frame. -/
theorem failed_run_no_assistant_witness :
    sampleScript.errorMsg = some "boom"
    ∧ ((run_agent_stream sampleDB 7 "q" 5 sampleScript).db.messages
          = sampleDB.messages ++ [(run_agent_stream sampleDB 7 "q" 5 sampleScript).userMsg]
        ∧ (∃ r ∈ (run_agent_stream sampleDB 7 "q" 5 sampleScript).db.runs,
            r.id = (run_agent_stream sampleDB 7 "q" 5 sampleScript).run.id
            ∧ r.status = RunStatus.failed ∧ r.metadata = RunMeta.error "boom"
            ∧ r.completedAt = some 5)
        ∧ (run_agent_stream sampleDB 7 "q" 5 sampleScript).out
            = (processEvents 5 sampleScript.events).out ++ [SSE.error "boom"]) :=
  ⟨rfl, failed_run_no_assistant sampleDB 7 "q" 5 sampleScript "boom" rfl⟩

/-- C10 witness: a clean stream with one tool round and no tokens still
    produces an empty assistant message, a completed run, and an empty
    done frame. -/
theorem no_token_run_completes_witness :
    ((processEvents 5 sampleEvents).out.all fun e => !e.isToken) = true
    ∧ ((∃ amsg : Message,
          (run_agent_stream sampleDB 7 "q" 5 (.clean sampleEvents)).db.messages
              = sampleDB.messages
                ++ [(run_agent_stream sampleDB 7 "q" 5 (.clean sampleEvents)).userMsg, amsg]
            ∧ amsg.role = MessageRole.assistant ∧ amsg.content = ""
            ∧ amsg.position
                = (run_agent_stream sampleDB 7 "q" 5 (.clean sampleEvents)).userMsg.position + 1)
        ∧ (∃ r ∈ (run_agent_stream sampleDB 7 "q" 5 (.clean sampleEvents)).db.runs,
            r.id = (run_agent_stream sampleDB 7 "q" 5 (.clean sampleEvents)).run.id
            ∧ r.status = RunStatus.completed ∧ r.completedAt = some 5)
        ∧ (run_agent_stream sampleDB 7 "q" 5 (.clean sampleEvents)).out.getLast?
            = some (SSE.done (sampleDB.nextMessageId + 1)
                (run_agent_stream sampleDB 7 "q" 5 (.clean sampleEvents)).run.id "")) :=
  ⟨by decide, no_token_run_completes sampleDB 7 "q" 5 sampleEvents (by decide)⟩

end Rayyan
